import Mathlib

/-!
Verification of the Black-Scholes-Merton pricing engine of
`bsm-pricing-model-streamlit` (files `black_scholes_merton.py`,
`data_utils.py`, `enums.py`), shallowly embedded over the reals.
Python floats are modelled as real numbers; `scipy.stats.norm.cdf` and
`norm.pdf` are modelled by the mathematical standard normal CDF and PDF.
Exceptions (`ValueError`, raised by `_validate_variables` and documented as
`InvalidInputError` in the specification) are modelled with `Except String`.
-/

open Real MeasureTheory

/-- Standard normal probability density, the model of `scipy.stats.norm.pdf`. -/
noncomputable def normPdf (x : ℝ) : ℝ :=
  (Real.sqrt (2 * π))⁻¹ * Real.exp (-(x ^ 2) / 2)

/-- Standard normal cumulative distribution, the model of `scipy.stats.norm.cdf`. -/
noncomputable def normCdf (x : ℝ) : ℝ :=
  (Real.sqrt (2 * π))⁻¹ * ∫ t in Set.Iic x, Real.exp (-(t ^ 2) / 2)


/-! ## The pricing engine (`black_scholes_merton.py`, `enums.py`) -/

/-- Model of `enums.OptionType`, a closed two-member enumeration. -/
inductive OptionType where
  | PUT
  | CALL
deriving DecidableEq, Repr

/-- Model of `BlackScholesMerton._calculate_d1_d2`. -/
noncomputable def calculate_d1_d2 (S K t r sigma q : ℝ) : ℝ × ℝ :=
  let d1 := (Real.log (S / K) + (r - q + 0.5 * sigma ^ 2) * t) / (sigma * Real.sqrt t)
  (d1, d1 - sigma * Real.sqrt t)

/-- Model of a constructed `BlackScholesMerton` instance: the six stored
inputs together with the derived `d1`, `d2` computed once in `__init__`. -/
structure BlackScholesMerton where
  S : ℝ
  K : ℝ
  t : ℝ
  r : ℝ
  sigma : ℝ
  q : ℝ
  d1 : ℝ
  d2 : ℝ

/-- Model of `BlackScholesMerton.__init__`: `_validate_variables` (its checks
in source order, each raising `ValueError`, the spec's `InvalidInputError`)
followed by `_calculate_d1_d2`. -/
noncomputable def mkBSM (S K t r sigma q : ℝ) : Except String BlackScholesMerton :=
  if S ≤ 0 then .error "Spot price (S) must be positive."
  else if K ≤ 0 then .error "Strike price (K) must be positive."
  else if t ≤ 0 then .error "Time to maturity (t) must be positive."
  else if sigma ≤ 0 then .error "Volatility (sigma) must be positive."
  else if q < 0 then .error "Dividend yield (q) cannot be negative."
  else .ok ⟨S, K, t, r, sigma, q,
    (calculate_d1_d2 S K t r sigma q).1, (calculate_d1_d2 S K t r sigma q).2⟩

/-- Result record of `BlackScholesMerton.call` / `.put` (the spec's
`GreekSet`). Gamma is `Option ℝ`, with `none` modelling the `np.nan`
sentinel returned on a zero denominator. -/
structure GreekSet where
  price : ℝ
  delta : ℝ
  gamma : Option ℝ
  vega : ℝ
  theta : ℝ
  rho : ℝ

/-- Model of `BlackScholesMerton.delta`. -/
noncomputable def BlackScholesMerton.delta (m : BlackScholesMerton) (ot : OptionType) : ℝ :=
  match ot with
  | .CALL => Real.exp (-m.q * m.t) * normCdf m.d1
  | .PUT => Real.exp (-m.q * m.t) * (normCdf m.d1 - 1)

/-- Model of `BlackScholesMerton.gamma`: returns the `np.nan` sentinel
(here `none`) when the denominator is exactly zero. -/
noncomputable def BlackScholesMerton.gamma (m : BlackScholesMerton) : Option ℝ :=
  if m.S * m.sigma * Real.sqrt m.t = 0 then none
  else some ((normPdf m.d1 * Real.exp (-m.q * m.t)) / (m.S * m.sigma * Real.sqrt m.t))

/-- Model of `BlackScholesMerton.vega`. -/
noncomputable def BlackScholesMerton.vega (m : BlackScholesMerton) : ℝ :=
  (m.S * Real.exp (-m.q * m.t) * normPdf m.d1 * Real.sqrt m.t) / 100

/-- Model of `BlackScholesMerton.theta`. -/
noncomputable def BlackScholesMerton.theta (m : BlackScholesMerton) (ot : OptionType) : ℝ :=
  let term1 := -(m.S * Real.exp (-m.q * m.t) * normPdf m.d1 * m.sigma) / (2 * Real.sqrt m.t)
  match ot with
  | .CALL =>
      (term1 + m.q * m.S * Real.exp (-m.q * m.t) * normCdf m.d1
        + -m.r * m.K * Real.exp (-m.r * m.t) * normCdf m.d2) / 365
  | .PUT =>
      (term1 + -m.q * m.S * Real.exp (-m.q * m.t) * normCdf (-m.d1)
        + m.r * m.K * Real.exp (-m.r * m.t) * normCdf (-m.d2)) / 365

/-- Model of `BlackScholesMerton.rho`. -/
noncomputable def BlackScholesMerton.rho (m : BlackScholesMerton) (ot : OptionType) : ℝ :=
  let term := m.K * m.t * Real.exp (-m.r * m.t)
  match ot with
  | .CALL => term * normCdf m.d2 / 100
  | .PUT => -term * normCdf (-m.d2) / 100

/-- Model of `BlackScholesMerton.call`: price plus the five Greeks. -/
noncomputable def BlackScholesMerton.call (m : BlackScholesMerton) : GreekSet :=
  ⟨m.S * Real.exp (-m.q * m.t) * normCdf m.d1 - m.K * Real.exp (-m.r * m.t) * normCdf m.d2,
    m.delta .CALL, m.gamma, m.vega, m.theta .CALL, m.rho .CALL⟩

/-- Model of `BlackScholesMerton.put`: price plus the five Greeks. -/
noncomputable def BlackScholesMerton.put (m : BlackScholesMerton) : GreekSet :=
  ⟨m.K * Real.exp (-m.r * m.t) * normCdf (-m.d2) - m.S * Real.exp (-m.q * m.t) * normCdf (-m.d1),
    m.delta .PUT, m.gamma, m.vega, m.theta .PUT, m.rho .PUT⟩

/-! ## Specification-side closed forms (from spec.md section 4.1) -/

/-- Description from the spec: `d1 = [ln(S/K) + (r - q + 0.5 sigma^2) t] / (sigma sqrt t)`. -/
noncomputable def spec_d1 (S K t r sigma q : ℝ) : ℝ :=
  (Real.log (S / K) + (r - q + 0.5 * sigma ^ 2) * t) / (sigma * Real.sqrt t)

/-- Description from the spec: `d2 = d1 - sigma sqrt t`. -/
noncomputable def spec_d2 (S K t r sigma q : ℝ) : ℝ :=
  spec_d1 S K t r sigma q - sigma * Real.sqrt t

/-- Description from the spec: call price `S e^(-qt) Phi(d1) - K e^(-rt) Phi(d2)`. -/
noncomputable def spec_call_price (S K t r sigma q : ℝ) : ℝ :=
  S * Real.exp (-q * t) * normCdf (spec_d1 S K t r sigma q)
    - K * Real.exp (-r * t) * normCdf (spec_d2 S K t r sigma q)

/-- Description from the spec: put price `K e^(-rt) Phi(-d2) - S e^(-qt) Phi(-d1)`. -/
noncomputable def spec_put_price (S K t r sigma q : ℝ) : ℝ :=
  K * Real.exp (-r * t) * normCdf (-spec_d2 S K t r sigma q)
    - S * Real.exp (-q * t) * normCdf (-spec_d1 S K t r sigma q)

/-! ## The spot sweep (`simulate_bsm` in `black_scholes_merton.py`) -/

/-- Model of `numpy.linspace(start, stop, num)` with default `endpoint=True`:
`num` evenly spaced samples from `start` to `stop` inclusive; `[start]` when
`num = 1`; `[]` when `num = 0`. -/
noncomputable def linspace (start stop : ℝ) (num : ℕ) : List ℝ :=
  if num = 0 then []
  else if num = 1 then [start]
  else (List.range num).map
    (fun i : ℕ => start + (i : ℝ) * ((stop - start) / ((num : ℝ) - 1)))

/-- Row of the sweep table: the computed `GreekSet` plus the spot used
(the `greeks["S"] = spot_price` column in the source). -/
structure SweepRow where
  greeks : GreekSet
  S : ℝ

/-- Model of `simulate_bsm`: builds the spot grid, prices each point, and
skips (via the `except ValueError` clause) any point whose
`BlackScholesMerton` construction raises. The source's `if option_type ==
OptionType.CALL ... else ...` prices any non-CALL variant as a put. -/
noncomputable def simulate_bsm (S K t r sigma q : ℝ) (option_type : OptionType)
    (range_percent : ℝ) (steps : ℕ) : List SweepRow :=
  let lower_bound := min S K
  let upper_bound := max S K
  let s_start := lower_bound * (1 - range_percent)
  let s_end := upper_bound * (1 + range_percent)
  (linspace s_start s_end steps).filterMap (fun spot_price =>
    match mkBSM spot_price K t r sigma q with
    | .error _ => none
    | .ok m => some ⟨if option_type = .CALL then m.call else m.put, spot_price⟩)

/-- Runtime value passed as `option_type`: Python does not enforce the
`OptionType` annotation on `simulate_bsm`, so a caller may pass any object.
Values other than the two enum members are modelled by `other` with an
identifying tag. -/
inductive PyVariant where
  | ofOptionType (ot : OptionType)
  | other (tag : String)
deriving DecidableEq

/-- Result of the source's only variant test, `option_type == OptionType.CALL`. -/
def pyIsCall : PyVariant → Bool
  | .ofOptionType .CALL => true
  | _ => false

/-- Model of `simulate_bsm` as invoked with an arbitrary runtime value for
`option_type`: the source tests only `option_type == OptionType.CALL` and
its `else` branch prices every other value — enum member or not — with
`put`; no code path raises for an unknown variant. -/
noncomputable def simulate_bsm_py (S K t r sigma q : ℝ) (option_type : PyVariant)
    (range_percent : ℝ) (steps : ℕ) : List SweepRow :=
  let lower_bound := min S K
  let upper_bound := max S K
  let s_start := lower_bound * (1 - range_percent)
  let s_end := upper_bound * (1 + range_percent)
  (linspace s_start s_end steps).filterMap (fun spot_price =>
    match mkBSM spot_price K t r sigma q with
    | .error _ => none
    | .ok m => some ⟨if pyIsCall option_type then m.call else m.put, spot_price⟩)

/-! ## Chain enrichment (`process_option_chains` in `data_utils.py`) -/

/-- Market-quoted input row of an option chain (the columns
`process_option_chains` reads or carries through). -/
structure ChainRowIn where
  contractSymbol : String
  strike : ℝ
  bid : ℝ
  ask : ℝ
  impliedVolatility : ℝ
  inTheMoney : Bool

/-- Enriched chain row: the market row, the model outputs attached to it,
and the derived `spread = ask - bid`. -/
structure ChainRowOut where
  row : ChainRowIn
  greeks : GreekSet
  spread : ℝ

/-- Stock metadata as returned by `get_stock_metadata`. -/
structure StockMetadata where
  spotPrice : ℝ
  dividendYield : ℝ

/-- Model of `(abs(expiration_date - date.today())).days / 365` with dates as
integer day numbers and `date.today()` made an explicit parameter. -/
noncomputable def timeToExpiry (expiration_date today : ℤ) : ℝ :=
  ((expiration_date - today).natAbs : ℝ) / 365

/-- Pricing of one chain row: construct `BlackScholesMerton` with the shared
scalars plus the row's `strike` and `impliedVolatility`, invoke `call` or
`put` per the row's variant, and attach `spread = ask - bid`. -/
noncomputable def priceChainRow (S t r q : ℝ) (ot : OptionType) (row : ChainRowIn) :
    Except String ChainRowOut :=
  match mkBSM S row.strike t r row.impliedVolatility q with
  | .error e => .error e
  | .ok m => .ok ⟨row, if ot = .CALL then m.call else m.put, row.ask - row.bid⟩

/-- Row loop of `process_option_chains` for one variant's table: sequential,
no error handling, so the first raising row aborts the whole call. -/
noncomputable def enrichRows (S t r q : ℝ) (ot : OptionType) :
    List ChainRowIn → Except String (List ChainRowOut)
  | [] => .ok []
  | row :: rest =>
    match priceChainRow S t r q ot row with
    | .error e => .error e
    | .ok out =>
      match enrichRows S t r q ot rest with
      | .error e => .error e
      | .ok outs => .ok (out :: outs)

/-- Model of `process_option_chains`: derives `S`, `t`, `r = 4.25/100`,
`q = dividendYield/100`, then enriches the calls table with call formulas and
the puts table with put formulas. The final merge-by-strike is UI table
assembly and is not modelled. -/
noncomputable def process_option_chains (calls puts : List ChainRowIn)
    (expiration_date today : ℤ) (meta : StockMetadata) :
    Except String (List ChainRowOut × List ChainRowOut) :=
  let S := meta.spotPrice
  let t := timeToExpiry expiration_date today
  let r := 4.25 / 100
  let q := meta.dividendYield / 100
  match enrichRows S t r q .CALL calls with
  | .error e => .error e
  | .ok calls2 =>
    match enrichRows S t r q .PUT puts with
    | .error e => .error e
    | .ok puts2 => .ok (calls2, puts2)

/-- Truth value of an `Except` being a success; used to phrase which sweep
points are kept. -/
def isOkB {ε α : Type} : Except ε α → Bool
  | .ok _ => true
  | .error _ => false

/-! ## Helper lemmas -/

lemma gauss_fun_eq :
    (fun t : ℝ => Real.exp (-(t ^ 2) / 2)) = fun t : ℝ => Real.exp (-(1 / 2 : ℝ) * t ^ 2) := by
  funext t
  congr 1
  ring

lemma gauss_integrable : Integrable (fun t : ℝ => Real.exp (-(t ^ 2) / 2)) := by
  rw [gauss_fun_eq]
  exact integrable_exp_neg_mul_sq (by norm_num)

lemma gauss_total : (∫ t : ℝ, Real.exp (-(t ^ 2) / 2)) = Real.sqrt (2 * π) := by
  rw [gauss_fun_eq]
  rw [integral_gaussian]
  congr 1
  ring

lemma sqrt_two_pi_pos : 0 < Real.sqrt (2 * π) :=
  Real.sqrt_pos.mpr (by positivity)

/-- Reflection identity for the standard normal CDF. -/
lemma normCdf_add_neg (x : ℝ) : normCdf x + normCdf (-x) = 1 := by
  have hIic : (∫ t in Set.Iic (-x), Real.exp (-(t ^ 2) / 2))
      = ∫ t in Set.Ioi x, Real.exp (-(t ^ 2) / 2) := by
    have heven : (∫ t in Set.Iic (-x), Real.exp (-(t ^ 2) / 2))
        = ∫ t in Set.Iic (-x), Real.exp (-((-t) ^ 2) / 2) := by
      simp [neg_sq]
    have h2 := integral_comp_neg_Iic (-x) (fun t => Real.exp (-(t ^ 2) / 2))
    simp only [neg_neg] at h2
    exact heven.trans h2
  have hsplit : (∫ t in Set.Iic x, Real.exp (-(t ^ 2) / 2))
      + (∫ t in Set.Ioi x, Real.exp (-(t ^ 2) / 2))
      = ∫ t : ℝ, Real.exp (-(t ^ 2) / 2) :=
    intervalIntegral.integral_Iic_add_Ioi gauss_integrable.integrableOn
      gauss_integrable.integrableOn
  unfold normCdf
  rw [hIic, ← mul_add, hsplit, gauss_total]
  exact inv_mul_cancel₀ (ne_of_gt sqrt_two_pi_pos)

lemma mkBSM_ok (S K t r sigma q : ℝ) (hS : 0 < S) (hK : 0 < K) (ht : 0 < t)
    (hsigma : 0 < sigma) (hq : 0 ≤ q) :
    mkBSM S K t r sigma q = Except.ok ⟨S, K, t, r, sigma, q,
      (calculate_d1_d2 S K t r sigma q).1, (calculate_d1_d2 S K t r sigma q).2⟩ := by
  unfold mkBSM
  rw [if_neg (not_le.mpr hS), if_neg (not_le.mpr hK), if_neg (not_le.mpr ht),
    if_neg (not_le.mpr hsigma), if_neg (not_lt.mpr hq)]

/-! ## Claims about the Pricer -/

/-- C2: `BlackScholesMerton` construction raises `InvalidInputError` exactly
when `S <= 0`, `K <= 0`, `t <= 0`, `sigma <= 0` or `q < 0`; for every other
input (any sign of `r`) it succeeds. -/
theorem mkBSM_error_iff (S K t r sigma q : ℝ) :
    ((∃ e, mkBSM S K t r sigma q = Except.error e) ↔
      (S ≤ 0 ∨ K ≤ 0 ∨ t ≤ 0 ∨ sigma ≤ 0 ∨ q < 0)) ∧
    ((∃ m, mkBSM S K t r sigma q = Except.ok m) ↔
      ¬(S ≤ 0 ∨ K ≤ 0 ∨ t ≤ 0 ∨ sigma ≤ 0 ∨ q < 0)) := by
  unfold mkBSM
  split_ifs with h1 h2 h3 h4 h5 <;> simp <;>
    first
      | exact ⟨by tauto, by intros; linarith⟩
      | exact ⟨by linarith, by linarith, by linarith, by linarith, by linarith⟩

/-- C1: for every valid input set the price field produced by `call` / `put`
equals the spec's closed form with `d1 = [ln(S/K) + (r - q + 0.5 sigma^2) t]
/ (sigma sqrt t)` and `d2 = d1 - sigma sqrt t`. -/
theorem price_matches_spec (S K t r sigma q : ℝ) (hS : 0 < S) (hK : 0 < K)
    (ht : 0 < t) (hsigma : 0 < sigma) (hq : 0 ≤ q) :
    ∃ m, mkBSM S K t r sigma q = Except.ok m ∧
      m.call.price = spec_call_price S K t r sigma q ∧
      m.put.price = spec_put_price S K t r sigma q :=
  ⟨_, mkBSM_ok S K t r sigma q hS hK ht hsigma hq, rfl, rfl⟩

/-- Witness for C1 at `S=100, K=95, t=1, r=0.04, sigma=0.2, q=0.01`. -/
theorem price_matches_spec_witness :
    ∃ m, mkBSM 100 95 1 (4 / 100) (2 / 10) (1 / 100) = Except.ok m ∧
      m.call.price = spec_call_price 100 95 1 (4 / 100) (2 / 10) (1 / 100) ∧
      m.put.price = spec_put_price 100 95 1 (4 / 100) (2 / 10) (1 / 100) :=
  price_matches_spec 100 95 1 (4 / 100) (2 / 10) (1 / 100)
    (by norm_num) (by norm_num) (by norm_num) (by norm_num) (by norm_num)

/-- C4: `d2 = d1 - sigma sqrt t` holds exactly for the derived quantities,
and the construction is deterministic: any successful construction from the
same inputs yields the same instance. -/
theorem d1_d2_invariant (S K t r sigma q : ℝ) (hS : 0 < S) (hK : 0 < K)
    (ht : 0 < t) (hsigma : 0 < sigma) (hq : 0 ≤ q) :
    ∃ m, mkBSM S K t r sigma q = Except.ok m ∧
      m.d2 = m.d1 - sigma * Real.sqrt t ∧
      ∀ m', mkBSM S K t r sigma q = Except.ok m' → m' = m := by
  refine ⟨_, mkBSM_ok S K t r sigma q hS hK ht hsigma hq, rfl, ?_⟩
  intro m' hm'
  rw [mkBSM_ok S K t r sigma q hS hK ht hsigma hq] at hm'
  exact (Except.ok.inj hm').symm

/-- Witness for C4 at `S=100, K=95, t=1, r=0.04, sigma=0.2, q=0.01`. -/
theorem d1_d2_invariant_witness :
    ∃ m, mkBSM 100 95 1 (4 / 100) (2 / 10) (1 / 100) = Except.ok m ∧
      m.d2 = m.d1 - (2 / 10) * Real.sqrt 1 ∧
      ∀ m', mkBSM 100 95 1 (4 / 100) (2 / 10) (1 / 100) = Except.ok m' → m' = m :=
  d1_d2_invariant 100 95 1 (4 / 100) (2 / 10) (1 / 100)
    (by norm_num) (by norm_num) (by norm_num) (by norm_num) (by norm_num)

/-- C3: put-call parity. For every valid input set,
`call.price - put.price = S e^(-qt) - K e^(-rt)` (exact over the reals). -/
theorem put_call_parity (S K t r sigma q : ℝ) (hS : 0 < S) (hK : 0 < K)
    (ht : 0 < t) (hsigma : 0 < sigma) (hq : 0 ≤ q) :
    ∃ m, mkBSM S K t r sigma q = Except.ok m ∧
      m.call.price - m.put.price = S * Real.exp (-q * t) - K * Real.exp (-r * t) := by
  refine ⟨_, mkBSM_ok S K t r sigma q hS hK ht hsigma hq, ?_⟩
  show S * Real.exp (-q * t) * normCdf (calculate_d1_d2 S K t r sigma q).1
      - K * Real.exp (-r * t) * normCdf (calculate_d1_d2 S K t r sigma q).2
      - (K * Real.exp (-r * t) * normCdf (-(calculate_d1_d2 S K t r sigma q).2)
        - S * Real.exp (-q * t) * normCdf (-(calculate_d1_d2 S K t r sigma q).1))
      = S * Real.exp (-q * t) - K * Real.exp (-r * t)
  linear_combination
    (S * Real.exp (-q * t)) * normCdf_add_neg (calculate_d1_d2 S K t r sigma q).1
      - (K * Real.exp (-r * t)) * normCdf_add_neg (calculate_d1_d2 S K t r sigma q).2

/-- Witness for C3 at `S=660, K=600, t=1/2, r=0.0425, sigma=0.2, q=0`. -/
theorem put_call_parity_witness :
    ∃ m, mkBSM 660 600 (1 / 2) (425 / 10000) (2 / 10) 0 = Except.ok m ∧
      m.call.price - m.put.price
        = 660 * Real.exp (-0 * (1 / 2)) - 600 * Real.exp (-(425 / 10000) * (1 / 2)) :=
  put_call_parity 660 600 (1 / 2) (425 / 10000) (2 / 10) 0
    (by norm_num) (by norm_num) (by norm_num) (by norm_num) (by norm_num)

/-- C9: `gamma` returns the not-a-number sentinel (`none`) when its
denominator `S * sigma * sqrt t` is exactly zero, and for every input set
that passes validation the denominator is nonzero, so `gamma` returns the
finite value `phi(d1) e^(-qt) / (S sigma sqrt t)`. -/
theorem gamma_zero_denominator :
    (∀ m : BlackScholesMerton, m.S * m.sigma * Real.sqrt m.t = 0 → m.gamma = none) ∧
    (∀ S K t r sigma q : ℝ, 0 < S → 0 < K → 0 < t → 0 < sigma → 0 ≤ q →
      ∃ m, mkBSM S K t r sigma q = Except.ok m ∧
        m.gamma = some ((normPdf m.d1 * Real.exp (-q * t)) / (S * sigma * Real.sqrt t))) := by
  constructor
  · intro m h
    unfold BlackScholesMerton.gamma
    rw [if_pos h]
  · intro S K t r sigma q hS hK ht hsigma hq
    refine ⟨_, mkBSM_ok S K t r sigma q hS hK ht hsigma hq, ?_⟩
    have hden : S * sigma * Real.sqrt t ≠ 0 :=
      ne_of_gt (mul_pos (mul_pos hS hsigma) (Real.sqrt_pos.mpr ht))
    simp only [BlackScholesMerton.gamma]
    rw [if_neg hden]

/-- Witness for C9: the zero-denominator branch on a raw instance with
`S = 0`, and the validated branch at `S=100, K=100, t=1, r=0.04, sigma=0.2,
q=0`. -/
theorem gamma_zero_denominator_witness :
    ((⟨0, 1, 1, 0, 1, 0, 0, 0⟩ : BlackScholesMerton).gamma = none) ∧
    (∃ m, mkBSM 100 100 1 (4 / 100) (2 / 10) 0 = Except.ok m ∧
      m.gamma = some ((normPdf m.d1 * Real.exp (-0 * 1)) / (100 * (2 / 10) * Real.sqrt 1))) :=
  ⟨gamma_zero_denominator.1 ⟨0, 1, 1, 0, 1, 0, 0, 0⟩ (by simp),
    gamma_zero_denominator.2 100 100 1 (4 / 100) (2 / 10) 0
      (by norm_num) (by norm_num) (by norm_num) (by norm_num) (by norm_num)⟩

/-! ## Claims about the sweep generator -/

lemma linspace_length (start stop : ℝ) (num : ℕ) :
    (linspace start stop num).length = num := by
  unfold linspace
  split_ifs with h0 h1
  · simp [h0]
  · simp [h1]
  · simp

lemma linspace_getElem (start stop : ℝ) (num : ℕ) (h2 : 2 ≤ num) (i : ℕ) (hi : i < num) :
    (linspace start stop num)[i]?
      = some (start + i * ((stop - start) / ((num : ℝ) - 1))) := by
  unfold linspace
  rw [if_neg (by omega), if_neg (by omega), List.getElem?_map, List.getElem?_range hi]
  rfl

lemma linspace_cast_ne (num : ℕ) (h2 : 2 ≤ num) : ((num : ℝ) - 1) ≠ 0 := by
  have : (2 : ℝ) ≤ (num : ℝ) := by exact_mod_cast h2
  intro h
  linarith

lemma linspace_sorted (start stop : ℝ) (num : ℕ) (h : start ≤ stop) :
    List.Sorted (· ≤ ·) (linspace start stop num) := by
  unfold linspace
  split_ifs with h0 h1
  · simp
  · simp
  · unfold List.Sorted
    rw [List.pairwise_iff_getElem]
    intro i j hi hj hij
    simp only [List.length_map, List.length_range] at hi hj
    simp only [List.getElem_map, List.getElem_range]
    have hstep : 0 ≤ (stop - start) / ((num : ℝ) - 1) := by
      apply div_nonneg (by linarith)
      have : (2 : ℝ) ≤ (num : ℝ) := by exact_mod_cast (by omega : 2 ≤ num)
      linarith
    have hij' : (i : ℝ) ≤ (j : ℝ) := by exact_mod_cast Nat.le_of_lt hij
    have := mul_le_mul_of_nonneg_right hij' hstep
    linarith

lemma sweep_lo_le_hi (S K rp : ℝ) (hS : 0 < S) (hK : 0 < K) (hrp : 0 ≤ rp) :
    min S K * (1 - rp) ≤ max S K * (1 + rp) := by
  have h1 : 0 < min S K := lt_min hS hK
  have h2 : min S K ≤ max S K := min_le_max
  nlinarith [mul_nonneg hrp h1.le, mul_nonneg hrp (h1.trans_le h2).le]

/-- C5 (amended): for `S, K > 0`, `rangePercent >= 0` and `steps >= 1` the
spot grid of `simulate_bsm` has exactly `steps` points, is `[lower bound]`
when `steps = 1`, is evenly spaced from `min(S,K)(1-rp)` to
`max(S,K)(1+rp)` inclusive of both endpoints when `steps >= 2`, and is
ascending (weakly; strictly when the bounds differ); for
`S=100, K=100, rp=0.3, steps=5` the sweep spots are `[70,85,100,115,130]`. -/
theorem simulate_spot_grid (S K t r sigma q rp : ℝ) (steps : ℕ)
    (hS : 0 < S) (hK : 0 < K) (hrp : 0 ≤ rp) (hsteps : 1 ≤ steps) :
    (linspace (min S K * (1 - rp)) (max S K * (1 + rp)) steps).length = steps ∧
    (steps = 1 → linspace (min S K * (1 - rp)) (max S K * (1 + rp)) steps
        = [min S K * (1 - rp)]) ∧
    (2 ≤ steps →
      (∀ i : ℕ, i < steps →
        (linspace (min S K * (1 - rp)) (max S K * (1 + rp)) steps)[i]?
          = some (min S K * (1 - rp)
              + i * ((max S K * (1 + rp) - min S K * (1 - rp)) / ((steps : ℝ) - 1)))) ∧
      (linspace (min S K * (1 - rp)) (max S K * (1 + rp)) steps).head?
        = some (min S K * (1 - rp)) ∧
      (linspace (min S K * (1 - rp)) (max S K * (1 + rp)) steps).getLast?
        = some (max S K * (1 + rp))) ∧
    List.Sorted (· ≤ ·) (linspace (min S K * (1 - rp)) (max S K * (1 + rp)) steps) ∧
    (simulate_bsm 100 100 1 (4 / 100) (2 / 10) 0 .CALL (3 / 10) 5).map SweepRow.S
      = [70, 85, 100, 115, 130] := by
  refine ⟨linspace_length _ _ _, ?_, ?_, ?_, ?_⟩
  · intro h1
    subst h1
    unfold linspace
    norm_num
  · intro h2
    refine ⟨fun i hi => linspace_getElem _ _ _ h2 i hi, ?_, ?_⟩
    · rw [List.head?_eq_getElem?, linspace_getElem _ _ _ h2 0 (by omega)]
      norm_num
    · rw [List.getLast?_eq_getElem?, linspace_length,
        linspace_getElem _ _ _ h2 (steps - 1) (by omega)]
      have hne := linspace_cast_ne steps h2
      have hcast : ((steps - 1 : ℕ) : ℝ) = (steps : ℝ) - 1 := by
        push_cast [Nat.cast_sub (by omega : 1 ≤ steps)]
        ring
      rw [hcast]
      congr 1
      field_simp
  · exact linspace_sorted _ _ _ (sweep_lo_le_hi S K rp hS hK hrp)
  · norm_num [simulate_bsm, linspace, List.range_succ, mkBSM, min_self, max_self,
      List.filterMap_cons]

/-- Witness for C5 at `S=100, K=95, rp=0.3, steps=5`. -/
theorem simulate_spot_grid_witness :
    (linspace (min 100 95 * (1 - 3 / 10)) (max 100 95 * (1 + 3 / 10)) 5).length = 5 ∧
    ((5 : ℕ) = 1 → linspace (min 100 95 * (1 - 3 / 10)) (max 100 95 * (1 + 3 / 10)) 5
        = [min 100 95 * (1 - 3 / 10)]) ∧
    (2 ≤ (5 : ℕ) →
      (∀ i : ℕ, i < 5 →
        (linspace (min 100 95 * (1 - 3 / 10)) (max 100 95 * (1 + 3 / 10)) 5)[i]?
          = some (min 100 95 * (1 - 3 / 10)
              + i * ((max 100 95 * (1 + 3 / 10) - min 100 95 * (1 - 3 / 10))
                  / (((5 : ℕ) : ℝ) - 1)))) ∧
      (linspace (min 100 95 * (1 - 3 / 10)) (max 100 95 * (1 + 3 / 10)) 5).head?
        = some (min 100 95 * (1 - 3 / 10)) ∧
      (linspace (min 100 95 * (1 - 3 / 10)) (max 100 95 * (1 + 3 / 10)) 5).getLast?
        = some (max 100 95 * (1 + 3 / 10))) ∧
    List.Sorted (· ≤ ·)
      (linspace (min 100 95 * (1 - 3 / 10)) (max 100 95 * (1 + 3 / 10)) 5) ∧
    (simulate_bsm 100 100 1 (4 / 100) (2 / 10) 0 .CALL (3 / 10) 5).map SweepRow.S
      = [70, 85, 100, 115, 130] :=
  simulate_spot_grid 100 95 1 (4 / 100) (2 / 10) 0 (3 / 10) 5
    (by norm_num) (by norm_num) (by norm_num) (by norm_num)

/-- Counterexample to C5 as stated: with `rangePercent = -0.5` (and
`S = K = 100`, `steps = 2`) the generated spot sequence is `[150, 50]`,
which is not in ascending order. -/
theorem simulate_spot_grid_counterexample :
    (simulate_bsm 100 100 1 (4 / 100) (2 / 10) 0 .CALL (-(1 / 2)) 2).map SweepRow.S
        = [150, 50] ∧
      ¬ List.Sorted (· ≤ ·) [(150 : ℝ), 50] := by
  constructor
  · norm_num [simulate_bsm, linspace, List.range_succ, mkBSM, min_self, max_self,
      List.filterMap_cons]
  · intro h
    have := (List.sorted_cons.mp h).1 50 (by simp)
    linarith

/-! ## Claims about error propagation -/

lemma sweep_map_filter (K t r sigma q : ℝ) (pick : BlackScholesMerton → GreekSet)
    (l : List ℝ) :
    (l.filterMap (fun spot_price =>
        match mkBSM spot_price K t r sigma q with
        | .error _ => none
        | .ok m => some (⟨pick m, spot_price⟩ : SweepRow))).map SweepRow.S
      = l.filter (fun spot_price => isOkB (mkBSM spot_price K t r sigma q)) := by
  induction l with
  | nil => rfl
  | cons a l ih =>
    rw [List.filterMap_cons, List.filter_cons]
    cases h : mkBSM a K t r sigma q with
    | error e => simp [h, isOkB, ih]
    | ok m => simp [h, isOkB, ih]

/-- Counterexample to C6 as stated: the runtime tag "BANANA" lies outside
{Call, Put}, yet no error propagates out of `simulate_bsm` for it: the
sweep returns a normal five-row table, identical to the put-variant table,
because the source's `else` branch prices every non-Call value as a put. -/
theorem simulate_invalid_variant_counterexample :
    (∀ ot : OptionType, PyVariant.other "BANANA" ≠ PyVariant.ofOptionType ot) ∧
    simulate_bsm_py 100 100 1 (4 / 100) (2 / 10) 0 (PyVariant.other "BANANA") (3 / 10) 5
      = simulate_bsm_py 100 100 1 (4 / 100) (2 / 10) 0 (PyVariant.ofOptionType OptionType.PUT)
          (3 / 10) 5 ∧
    (simulate_bsm_py 100 100 1 (4 / 100) (2 / 10) 0
        (PyVariant.other "BANANA") (3 / 10) 5).length = 5 := by
  refine ⟨fun ot => by simp, rfl, ?_⟩
  norm_num [simulate_bsm_py, linspace, List.range_succ, mkBSM, min_self, max_self,
    List.filterMap_cons]

/-- C6 (amended): the sweep generator prices every generated spot point,
silently omits (via the `except ValueError` handler) exactly the points
whose `BlackScholesMerton` construction raises `InvalidInputError`, and
continues with the remaining points in order; and no invalid-variant error
can propagate out of `simulate_bsm`: on the enum members `simulate_bsm_py`
agrees with `simulate_bsm`, and every variant value other than Call —
including every runtime value outside {Call, Put} — is priced with the put
formulas and the call returns normally. -/
theorem simulate_skips_invalid_never_raises_variant (S K t r sigma q rp : ℝ)
    (v : PyVariant) (steps : ℕ) :
    ((simulate_bsm_py S K t r sigma q v rp steps).map SweepRow.S
      = (linspace (min S K * (1 - rp)) (max S K * (1 + rp)) steps).filter
          (fun spot_price => isOkB (mkBSM spot_price K t r sigma q))) ∧
    (∀ spot_price : ℝ, isOkB (mkBSM spot_price K t r sigma q) = false ↔
      (spot_price ≤ 0 ∨ K ≤ 0 ∨ t ≤ 0 ∨ sigma ≤ 0 ∨ q < 0)) ∧
    (∀ ot : OptionType, simulate_bsm S K t r sigma q ot rp steps
      = simulate_bsm_py S K t r sigma q (.ofOptionType ot) rp steps) ∧
    (pyIsCall v = false →
      simulate_bsm_py S K t r sigma q v rp steps
        = simulate_bsm_py S K t r sigma q (.ofOptionType .PUT) rp steps) := by
  refine ⟨sweep_map_filter K t r sigma q _ _, ?_, ?_, ?_⟩
  · intro sp
    unfold mkBSM
    split_ifs with h1 h2 h3 h4 h5 <;> simp [isOkB] <;>
      first
        | tauto
        | exact ⟨by linarith, by linarith, by linarith, by linarith, by linarith⟩
  · intro ot
    cases ot <;> rfl
  · intro h
    simp only [simulate_bsm_py, h]
    simp [pyIsCall]

lemma mkBSM_error_of_sigma_nonpos (S K t r sigma q : ℝ) (h : sigma ≤ 0) :
    ∃ e, mkBSM S K t r sigma q = Except.error e := by
  unfold mkBSM
  split_ifs <;> simp_all

lemma mkBSM_error_of_t_nonpos (S K t r sigma q : ℝ) (h : t ≤ 0) :
    ∃ e, mkBSM S K t r sigma q = Except.error e := by
  unfold mkBSM
  split_ifs <;> simp_all

lemma priceChainRow_error_of_iv_nonpos (S t r q : ℝ) (ot : OptionType) (row : ChainRowIn)
    (h : row.impliedVolatility ≤ 0) :
    ∃ e, priceChainRow S t r q ot row = Except.error e := by
  obtain ⟨e, he⟩ := mkBSM_error_of_sigma_nonpos S row.strike t r row.impliedVolatility q h
  exact ⟨e, by simp [priceChainRow, he]⟩

lemma enrichRows_error_of_mem (S t r q : ℝ) (ot : OptionType) (rows : List ChainRowIn)
    (h : ∃ row ∈ rows, row.impliedVolatility ≤ 0) :
    ∃ e, enrichRows S t r q ot rows = Except.error e := by
  induction rows with
  | nil => simp at h
  | cons a l ih =>
    rcases h with ⟨row, hmem, hiv⟩
    rcases List.mem_cons.mp hmem with heq | hmem'
    · subst heq
      obtain ⟨e, he⟩ := priceChainRow_error_of_iv_nonpos S t r q ot row hiv
      exact ⟨e, by simp [enrichRows, he]⟩
    · cases hp : priceChainRow S t r q ot a with
      | error e => exact ⟨e, by simp [enrichRows, hp]⟩
      | ok out =>
        obtain ⟨e, he⟩ := ih ⟨row, hmem', hiv⟩
        exact ⟨e, by simp [enrichRows, hp, he]⟩

/-- C7: chain enrichment catches nothing: if any row of either table has a
non-positive implied volatility, the whole `process_option_chains` call
fails with `InvalidInputError` and no partially enriched result is
returned. -/
theorem enrichment_propagates_invalid_iv (calls puts : List ChainRowIn)
    (expiration_date today : ℤ) (meta : StockMetadata)
    (h : (∃ row ∈ calls, row.impliedVolatility ≤ 0) ∨
      (∃ row ∈ puts, row.impliedVolatility ≤ 0)) :
    ∃ e, process_option_chains calls puts expiration_date today meta = Except.error e := by
  rcases h with hc | hp
  · obtain ⟨e, he⟩ := enrichRows_error_of_mem meta.spotPrice
      (timeToExpiry expiration_date today) (4.25 / 100) (meta.dividendYield / 100)
      .CALL calls hc
    exact ⟨e, by simp [process_option_chains, he]⟩
  · cases hcalls : enrichRows meta.spotPrice (timeToExpiry expiration_date today)
        (4.25 / 100) (meta.dividendYield / 100) .CALL calls with
    | error e => exact ⟨e, by simp [process_option_chains, hcalls]⟩
    | ok c2 =>
      obtain ⟨e, he⟩ := enrichRows_error_of_mem meta.spotPrice
        (timeToExpiry expiration_date today) (4.25 / 100) (meta.dividendYield / 100)
        .PUT puts hp
      exact ⟨e, by simp [process_option_chains, hcalls, he]⟩

/-- Witness for C7: a one-row calls table quoting implied volatility -0.1
makes the whole enrichment call fail. -/
theorem enrichment_propagates_invalid_iv_witness :
    ∃ e, process_option_chains [⟨"BAD", 100, 1, 2, -(1 / 10), false⟩] [] 365 0 ⟨100, 0⟩
      = Except.error e :=
  enrichment_propagates_invalid_iv [⟨"BAD", 100, 1, 2, -(1 / 10), false⟩] [] 365 0 ⟨100, 0⟩
    (Or.inl ⟨⟨"BAD", 100, 1, 2, -(1 / 10), false⟩, by simp, by norm_num⟩)

lemma enrichRows_ok_spec (S t r q : ℝ) (ot : OptionType) (rows : List ChainRowIn)
    (out : List ChainRowOut) (h : enrichRows S t r q ot rows = Except.ok out) :
    out.length = rows.length ∧
    ∀ i : ℕ, i < rows.length → ∃ row m,
      rows[i]? = some row ∧
      mkBSM S row.strike t r row.impliedVolatility q = Except.ok m ∧
      out[i]? = some ⟨row, if ot = .CALL then m.call else m.put, row.ask - row.bid⟩ := by
  induction rows generalizing out with
  | nil =>
    simp only [enrichRows, Except.ok.injEq] at h
    subst h
    simp
  | cons a l ih =>
    simp only [enrichRows] at h
    cases hp : priceChainRow S t r q ot a with
    | error e => rw [hp] at h; cases h
    | ok o =>
      rw [hp] at h
      cases hr : enrichRows S t r q ot l with
      | error e => rw [hr] at h; cases h
      | ok outs =>
        rw [hr] at h
        simp only [Except.ok.injEq] at h
        subst h
        obtain ⟨hlen, hspec⟩ := ih outs hr
        simp only [priceChainRow] at hp
        cases hm : mkBSM S a.strike t r a.impliedVolatility q with
        | error e => rw [hm] at hp; cases hp
        | ok m =>
          rw [hm] at hp
          simp only [Except.ok.injEq] at hp
          constructor
          · simp [hlen]
          · intro i hi
            cases i with
            | zero => exact ⟨a, m, by simp, hm, by simp [← hp]⟩
            | succ n =>
              obtain ⟨row, m', h1, h2, h3⟩ := hspec n (by simpa using hi)
              exact ⟨row, m', by simpa using h1, h2, by simpa using h3⟩

/-- C8: every row of each table is priced by a `BlackScholesMerton` instance
built from the shared scalars (spot, derived time-to-expiry, the module's
risk-free rate `4.25/100`, the scaled dividend yield) together with the
row's own `strike` and `impliedVolatility`, call rows through `call` and put
rows through `put`, with `spread = ask - bid` attached; row order and count
are preserved. -/
theorem enrichment_uses_row_inputs (calls puts : List ChainRowIn)
    (expiration_date today : ℤ) (meta : StockMetadata)
    (callsOut putsOut : List ChainRowOut)
    (h : process_option_chains calls puts expiration_date today meta
      = Except.ok (callsOut, putsOut)) :
    (callsOut.length = calls.length ∧
      ∀ i : ℕ, i < calls.length → ∃ row m,
        calls[i]? = some row ∧
        mkBSM meta.spotPrice row.strike (timeToExpiry expiration_date today) (4.25 / 100)
          row.impliedVolatility (meta.dividendYield / 100) = Except.ok m ∧
        callsOut[i]? = some ⟨row, m.call, row.ask - row.bid⟩) ∧
    (putsOut.length = puts.length ∧
      ∀ i : ℕ, i < puts.length → ∃ row m,
        puts[i]? = some row ∧
        mkBSM meta.spotPrice row.strike (timeToExpiry expiration_date today) (4.25 / 100)
          row.impliedVolatility (meta.dividendYield / 100) = Except.ok m ∧
        putsOut[i]? = some ⟨row, m.put, row.ask - row.bid⟩) := by
  simp only [process_option_chains] at h
  cases hc : enrichRows meta.spotPrice (timeToExpiry expiration_date today) (4.25 / 100)
      (meta.dividendYield / 100) .CALL calls with
  | error e => rw [hc] at h; cases h
  | ok c2 =>
    rw [hc] at h
    cases hp : enrichRows meta.spotPrice (timeToExpiry expiration_date today) (4.25 / 100)
        (meta.dividendYield / 100) .PUT puts with
    | error e => rw [hp] at h; cases h
    | ok p2 =>
      rw [hp] at h
      simp only [Except.ok.injEq, Prod.mk.injEq] at h
      obtain ⟨h1, h2⟩ := h
      subst h1
      subst h2
      constructor
      · obtain ⟨hl, hs⟩ := enrichRows_ok_spec _ _ _ _ .CALL calls c2 hc
        refine ⟨hl, fun i hi => ?_⟩
        obtain ⟨row, m, ha, hb, hcc⟩ := hs i hi
        exact ⟨row, m, ha, hb, by simpa using hcc⟩
      · obtain ⟨hl, hs⟩ := enrichRows_ok_spec _ _ _ _ .PUT puts p2 hp
        refine ⟨hl, fun i hi => ?_⟩
        obtain ⟨row, m, ha, hb, hcc⟩ := hs i hi
        exact ⟨row, m, ha, hb, by simpa using hcc⟩

lemma enrichRows_ok_of_valid (S t r q : ℝ) (ot : OptionType) (rows : List ChainRowIn)
    (hS : 0 < S) (ht : 0 < t) (hq : 0 ≤ q)
    (hrows : ∀ row ∈ rows, 0 < row.strike ∧ 0 < row.impliedVolatility) :
    ∃ out, enrichRows S t r q ot rows = Except.ok out := by
  induction rows with
  | nil => exact ⟨[], rfl⟩
  | cons a l ih =>
    obtain ⟨hk, hiv⟩ := hrows a (by simp)
    cases hpc : priceChainRow S t r q ot a with
    | error e =>
      exfalso
      have hm := mkBSM_ok S a.strike t r a.impliedVolatility q hS hk ht hiv hq
      simp [priceChainRow, hm] at hpc
    | ok o =>
      obtain ⟨out, hout⟩ := ih (fun row hm => hrows row (by simp [hm]))
      exact ⟨o :: out, by simp [enrichRows, hpc, hout]⟩

lemma process_ok_of_valid (calls puts : List ChainRowIn)
    (expiration_date today : ℤ) (meta : StockMetadata)
    (hS : 0 < meta.spotPrice) (ht : 0 < timeToExpiry expiration_date today)
    (hq : 0 ≤ meta.dividendYield)
    (hc : ∀ row ∈ calls, 0 < row.strike ∧ 0 < row.impliedVolatility)
    (hp : ∀ row ∈ puts, 0 < row.strike ∧ 0 < row.impliedVolatility) :
    ∃ out, process_option_chains calls puts expiration_date today meta = Except.ok out := by
  obtain ⟨c2, hc2⟩ := enrichRows_ok_of_valid meta.spotPrice
    (timeToExpiry expiration_date today) (4.25 / 100) (meta.dividendYield / 100)
    .CALL calls hS ht (by linarith) hc
  obtain ⟨p2, hp2⟩ := enrichRows_ok_of_valid meta.spotPrice
    (timeToExpiry expiration_date today) (4.25 / 100) (meta.dividendYield / 100)
    .PUT puts hS ht (by linarith) hp
  exact ⟨(c2, p2), by simp [process_option_chains, hc2, hp2]⟩

/-- Witness for C8 on a one-row calls table and empty puts table that
enriches successfully. -/
theorem enrichment_uses_row_inputs_witness :
    ∃ callsOut putsOut,
      process_option_chains [⟨"ROW", 100, 1, 2, 2 / 10, true⟩] [] 365 0 ⟨100, 0⟩
          = Except.ok (callsOut, putsOut) ∧
        callsOut.length = 1 ∧ putsOut.length = 0 := by
  obtain ⟨out, hok⟩ := process_ok_of_valid [⟨"ROW", 100, 1, 2, 2 / 10, true⟩] [] 365 0
    ⟨100, 0⟩ (by norm_num) (by norm_num [timeToExpiry]) (by norm_num)
    (by intro row hr; simp at hr; subst hr; norm_num) (by simp)
  obtain ⟨callsOut, putsOut⟩ := out
  have hspec := enrichment_uses_row_inputs [⟨"ROW", 100, 1, 2, 2 / 10, true⟩] [] 365 0
    ⟨100, 0⟩ callsOut putsOut hok
  exact ⟨callsOut, putsOut, hok, by simpa using hspec.1.1, by simpa using hspec.2.1⟩

lemma enrichRows_error_head (S t r q : ℝ) (ot : OptionType) (a : ChainRowIn)
    (l : List ChainRowIn) (ht : t ≤ 0) :
    ∃ e, enrichRows S t r q ot (a :: l) = Except.error e := by
  obtain ⟨e, he⟩ := mkBSM_error_of_t_nonpos S a.strike t r a.impliedVolatility q ht
  exact ⟨e, by simp [enrichRows, priceChainRow, he]⟩

/-- C10: chain enrichment measures time-to-expiry as `|expiration - today|
days / 365`: an expiration `d` days in the past yields the same positive
time-to-expiry as one `d` days in the future, so the whole enrichment call
behaves identically (and succeeds on valid data); an expiration equal to
today yields time-to-expiry exactly 0, every row's pricing then raises
`InvalidInputError`, and any nonempty chain makes the call fail. -/
theorem past_expiration_same_as_future (today d : ℤ) (hd : 0 < d)
    (calls puts : List ChainRowIn) (meta : StockMetadata) :
    timeToExpiry (today - d) today = timeToExpiry (today + d) today ∧
    0 < timeToExpiry (today - d) today ∧
    process_option_chains calls puts (today - d) today meta
      = process_option_chains calls puts (today + d) today meta ∧
    timeToExpiry today today = 0 ∧
    (∀ S K r sigma q : ℝ,
      ∃ e, mkBSM S K (timeToExpiry today today) r sigma q = Except.error e) ∧
    (0 < meta.spotPrice → 0 ≤ meta.dividendYield →
      (∀ row ∈ calls, 0 < row.strike ∧ 0 < row.impliedVolatility) →
      (∀ row ∈ puts, 0 < row.strike ∧ 0 < row.impliedVolatility) →
      ∃ out, process_option_chains calls puts (today - d) today meta = Except.ok out) ∧
    (calls ≠ [] ∨ puts ≠ [] →
      ∃ e, process_option_chains calls puts today today meta = Except.error e) := by
  have h1 : timeToExpiry (today - d) today = (d.natAbs : ℝ) / 365 := by
    unfold timeToExpiry
    have hsub : today - d - today = -d := by ring
    rw [hsub, Int.natAbs_neg]
  have h2 : timeToExpiry (today + d) today = (d.natAbs : ℝ) / 365 := by
    unfold timeToExpiry
    have hsub : today + d - today = d := by ring
    rw [hsub]
  have heq : timeToExpiry (today - d) today = timeToExpiry (today + d) today :=
    h1.trans h2.symm
  have hpos : 0 < timeToExpiry (today - d) today := by
    rw [h1]
    have hn : 0 < d.natAbs := Int.natAbs_pos.mpr (by omega)
    have hn' : (0 : ℝ) < (d.natAbs : ℝ) := by exact_mod_cast hn
    positivity
  have ht0 : timeToExpiry today today = 0 := by
    unfold timeToExpiry
    simp
  refine ⟨heq, hpos, ?_, ht0, ?_, ?_, ?_⟩
  · simp only [process_option_chains, heq]
  · intro S K r sigma q
    rw [ht0]
    exact mkBSM_error_of_t_nonpos S K 0 r sigma q le_rfl
  · intro hS hq hcrows hprows
    exact process_ok_of_valid calls puts (today - d) today meta hS hpos hq hcrows hprows
  · intro hne
    rcases hcalls : calls with _ | ⟨a, l⟩
    · rcases hputs : puts with _ | ⟨b, m2⟩
      · rw [hcalls, hputs] at hne
        simp at hne
      · obtain ⟨e, he⟩ := enrichRows_error_head meta.spotPrice (timeToExpiry today today)
          (4.25 / 100) (meta.dividendYield / 100) .PUT b m2 (le_of_eq ht0)
        refine ⟨e, ?_⟩
        simp only [process_option_chains]
        have hnil : enrichRows meta.spotPrice (timeToExpiry today today) (4.25 / 100)
            (meta.dividendYield / 100) .CALL ([] : List ChainRowIn) = Except.ok [] := rfl
        rw [hnil, he]
    · obtain ⟨e, he⟩ := enrichRows_error_head meta.spotPrice (timeToExpiry today today)
        (4.25 / 100) (meta.dividendYield / 100) .CALL a l (le_of_eq ht0)
      exact ⟨e, by simp [process_option_chains, he]⟩

/-- Witness for C10 at `today = 0`, `d = 1`, with a one-row calls table. -/
theorem past_expiration_same_as_future_witness :
    timeToExpiry (0 - 1) 0 = timeToExpiry (0 + 1) 0 ∧
    0 < timeToExpiry (0 - 1) 0 ∧
    process_option_chains [⟨"ROW", 100, 1, 2, 2 / 10, true⟩] [] (0 - 1) 0 ⟨100, 0⟩
      = process_option_chains [⟨"ROW", 100, 1, 2, 2 / 10, true⟩] [] (0 + 1) 0 ⟨100, 0⟩ ∧
    timeToExpiry 0 0 = 0 ∧
    (∃ e, process_option_chains [⟨"ROW", 100, 1, 2, 2 / 10, true⟩] [] 0 0 ⟨100, 0⟩
      = Except.error e) :=
  have h := past_expiration_same_as_future 0 1 (by norm_num)
    [⟨"ROW", 100, 1, 2, 2 / 10, true⟩] [] ⟨100, 0⟩
  ⟨h.1, h.2.1, h.2.2.1, h.2.2.2.1, h.2.2.2.2.2.2 (Or.inl (by simp))⟩

/-- Witness for C2 at `S=0` (invalid) with the other inputs valid. -/
theorem mkBSM_error_iff_witness :
    ((∃ e, mkBSM 0 100 1 (4 / 100) (2 / 10) 0 = Except.error e) ↔
      ((0 : ℝ) ≤ 0 ∨ (100 : ℝ) ≤ 0 ∨ (1 : ℝ) ≤ 0 ∨ (2 / 10 : ℝ) ≤ 0 ∨ (0 : ℝ) < 0)) ∧
    ((∃ m, mkBSM 0 100 1 (4 / 100) (2 / 10) 0 = Except.ok m) ↔
      ¬((0 : ℝ) ≤ 0 ∨ (100 : ℝ) ≤ 0 ∨ (1 : ℝ) ≤ 0 ∨ (2 / 10 : ℝ) ≤ 0 ∨ (0 : ℝ) < 0)) :=
  mkBSM_error_iff 0 100 1 (4 / 100) (2 / 10) 0

/-- Witness for C6 at the out-of-enum tag "BANANA" with
`S=100, K=100, t=1, r=0.04, sigma=0.2, q=0, rangePercent=0.3, steps=5`. -/
theorem simulate_skips_invalid_never_raises_variant_witness :
    ((simulate_bsm_py 100 100 1 (4 / 100) (2 / 10) 0 (PyVariant.other "BANANA") (3 / 10) 5).map
        SweepRow.S
      = (linspace (min 100 100 * (1 - 3 / 10)) (max 100 100 * (1 + 3 / 10)) 5).filter
          (fun spot_price => isOkB (mkBSM spot_price 100 1 (4 / 100) (2 / 10) 0))) ∧
    simulate_bsm_py 100 100 1 (4 / 100) (2 / 10) 0 (PyVariant.other "BANANA") (3 / 10) 5
      = simulate_bsm_py 100 100 1 (4 / 100) (2 / 10) 0 (PyVariant.ofOptionType OptionType.PUT)
          (3 / 10) 5 :=
  have h := simulate_skips_invalid_never_raises_variant 100 100 1 (4 / 100) (2 / 10) 0
    (3 / 10) (PyVariant.other "BANANA") 5
  ⟨h.1, h.2.2.2 rfl⟩
